import Mathlib

/-!
Package sizedwaitgroup.

A shallow embedding of `sizedwaitgroup.go` (package `sizedwaitgroup`).

The Go type `SizedWaitGroup` has an exported field `Size`, a buffered channel
`current chan bool` used as a counting semaphore, and a `sync.WaitGroup`.

Modelling choices.

* Go `int` is 64 bits wide (the constant `4294967295` assigned to an `int` in `New`
  does not fit a 32-bit `int`).  Integers are `Int`; the one place where wrap-around can
  happen, the `i--` of the negative loop of `Add`, wraps explicitly.
* The buffered channel is its capacity together with the list of buffered values.
  A send is enabled when the buffer holds fewer values than the capacity, a receive
  when the buffer is not empty; otherwise the goroutine is parked (it blocks).
* `sync.WaitGroup` is the standard library's.  It is modelled by its documented
  contract: a counter; `Add(delta)` adds `delta` and panics when the counter would go
  negative; `Done()` is `Add(-1)`; `Wait()` returns only when the counter is zero.
  The counter is a mathematical integer: how the library stores it is not part of
  this package and is not modelled, nor are the limits of memory on the channel.
* An uncaught panic ends the program, so a panicking call has no resulting state.
* Two semantics are given.  The sequential one (`Add`, `Done`, `Wait`) runs one call
  to its end on a state nobody else touches and says whether the call returned,
  parked, or panicked.  The small-step one (`step`) executes one shared-memory
  operation of one goroutine at a time; `exec` interleaves any number of goroutines.
  `run_Add`, `run_Done` and `run_Wait` relate the two.
-/

namespace Sizedwaitgroup

/-! ## Machine integers -/

/-- Smallest value of a Go `int` (64 bits). -/
def minInt : Int := -9223372036854775808

/-- Largest value of a Go `int` (64 bits). -/
def maxInt : Int := 9223372036854775807

/-- Two's-complement wrap-around of a 64-bit signed integer. -/
def wrapInt (x : Int) : Int := (x + 9223372036854775808) % 18446744073709551616 - 9223372036854775808

/-! ## Buffered channel of `bool` -/

/-- Buffered channel `chan bool`: capacity and buffered values, oldest first. -/
structure Chan where
  cap : Int
  buf : List Bool
deriving DecidableEq, Repr

/-- Go `make(chan bool, size)`. -/
def makeChan (size : Int) : Chan := { cap := size, buf := [] }

/-- Go `c <- v`.  `none`: the buffer is full and the sender is parked. -/
def Chan.send (c : Chan) (v : Bool) : Option Chan :=
  if (c.buf.length : Int) < c.cap then some { c with buf := c.buf ++ [v] } else none

/-- Go `<-c`.  `none`: the buffer is empty and the receiver is parked. -/
def Chan.recv (c : Chan) : Option (Bool × Chan) :=
  match c.buf with
  | [] => none
  | v :: rest => some (v, { c with buf := rest })

/-! ## sync.WaitGroup -/

/-- Go `wg.Add(delta)` on a counter `n`.  `none`: panic, the counter would go negative. -/
def wgAdd (n : Int) (delta : Int) : Option Int :=
  if n + delta < 0 then none else some (n + delta)

/-- Go `wg.Done()`, which is `wg.Add(-1)`. -/
def wgDone (n : Int) : Option Int := wgAdd n (-1)

/-- Go `wg.Wait()` may return exactly when the counter is zero. -/
def wgWaitReady (n : Int) : Bool := decide (n = 0)

/-! ## The SizedWaitGroup -/

/-- Go `type SizedWaitGroup struct`: `wg` is the counter of the embedded `sync.WaitGroup`. -/
structure SizedWaitGroup where
  Size : Int
  current : Chan
  wg : Int
deriving DecidableEq, Repr

/-- Number of tokens held in the admission gate: values buffered in `current`. -/
def tokens (s : SizedWaitGroup) : Nat := s.current.buf.length

/-- Go `func New(limit int) SizedWaitGroup`. -/
def New (limit : Int) : SizedWaitGroup :=
  let size : Int := if limit > 0 then limit else 4294967295
  { Size := size, current := makeChan size, wg := 0 }

/-- Program points of a goroutine inside a call, one before each shared operation. -/
inductive Pc where
  /-- entry of `Add(delta)`, before `if delta >= 0` -/
  | add (delta : Int)
  /-- head of `for i := 0; i < delta; i++`: the test, then `s.wg.Add(1)` -/
  | upHead (delta i : Int)
  /-- before `s.current <- true` in the iteration with loop variable `i` -/
  | upSend (delta i : Int)
  /-- head of `for i := delta; i >= delta; i--`: the test, then `s.wg.Add(-1)` -/
  | downHead (delta i : Int)
  /-- before `<-s.current` in the iteration with loop variable `i` -/
  | downRecv (delta i : Int)
  /-- entry of `Done()`, before `s.wg.Done()` -/
  | done
  /-- before `<-s.current` of `Done()` -/
  | doneRecv
  /-- entry of `Wait()`, before `s.wg.Wait()` -/
  | wait
  /-- the call has returned -/
  | ret
deriving DecidableEq, Repr

/-- How a call ends when run alone. -/
inductive Outcome where
  /-- the call returned, leaving this state -/
  | returned (s : SizedWaitGroup)
  /-- the goroutine is parked at `pc` in this state and needs another goroutine to go on -/
  | blocked (s : SizedWaitGroup) (pc : Pc)
  /-- the call panicked -/
  | panicked
deriving DecidableEq, Repr

/-- Loop `for i := 0; i < delta; i++ { s.wg.Add(1); s.current <- true }` of `Add`,
from the loop head with loop variable `i`.  Here `i < delta`, so `i++` cannot overflow. -/
def addUp (delta : Int) (i : Int) (s : SizedWaitGroup) : Outcome :=
  if i < delta then
    match wgAdd s.wg 1 with
    | none => .panicked
    | some n =>
      match s.current.send true with
      | none => .blocked { s with wg := n } (.upSend delta i)
      | some c => addUp delta (i + 1) { s with wg := n, current := c }
  else .returned s
termination_by (delta - i).toNat
decreasing_by omega

/-- Loop `for i := delta; i >= delta; i-- { s.wg.Add(-1); <-s.current }` of `Add`,
from the loop head with loop variable `i`.  Every completed iteration takes a value
out of the channel, which bounds the number of iterations. -/
def addDown (delta : Int) (i : Int) (s : SizedWaitGroup) : Outcome :=
  if i ≥ delta then
    match wgAdd s.wg (-1) with
    | none => .panicked
    | some n =>
      match h : s.current.recv with
      | none => .blocked { s with wg := n } (.downRecv delta i)
      | some (_, c) => addDown delta (wrapInt (i - 1)) { s with wg := n, current := c }
  else .returned s
termination_by s.current.buf.length
decreasing_by
  simp only [Chan.recv] at h
  split at h
  · simp at h
  · rename_i v rest hb
    simp only [Option.some.injEq, Prod.mk.injEq] at h
    rw [← h.2, hb]
    simp

/-- Go `func (s *SizedWaitGroup) Add(delta int)`. -/
def Add (s : SizedWaitGroup) (delta : Int) : Outcome :=
  if delta ≥ 0 then addUp delta 0 s else addDown delta delta s

/-- Go `func (s *SizedWaitGroup) Done()`. -/
def Done (s : SizedWaitGroup) : Outcome :=
  match wgDone s.wg with
  | none => .panicked
  | some n =>
    match s.current.recv with
    | none => .blocked { s with wg := n } .doneRecv
    | some (_, c) => .returned { s with wg := n, current := c }

/-- Go `func (s *SizedWaitGroup) Wait()`. -/
def Wait (s : SizedWaitGroup) : Outcome :=
  if wgWaitReady s.wg then .returned s else .blocked s .wait

/-! ## Small-step semantics -/

/-- Result of one step of a goroutine. -/
inductive Step where
  /-- the step was taken: new shared state and new program point -/
  | next (s : SizedWaitGroup) (pc : Pc)
  /-- the operation at this program point is not enabled: the goroutine stays parked -/
  | blocked
  /-- the operation panics -/
  | panicked
  /-- the call has returned already: nothing to execute -/
  | halted
deriving DecidableEq, Repr

/-- One step of a goroutine at program point `pc` on the shared state `s`.  Each step
performs at most one operation on the shared state (a counter update, a channel
send or receive, or the test of `Wait`). -/
def step (s : SizedWaitGroup) : Pc → Step
  | .add delta =>
    if delta ≥ 0 then .next s (.upHead delta 0) else .next s (.downHead delta delta)
  | .upHead delta i =>
    if i < delta then
      match wgAdd s.wg 1 with
      | none => .panicked
      | some n => .next { s with wg := n } (.upSend delta i)
    else .next s .ret
  | .upSend delta i =>
    match s.current.send true with
    | none => .blocked
    | some c => .next { s with current := c } (.upHead delta (i + 1))
  | .downHead delta i =>
    if i ≥ delta then
      match wgAdd s.wg (-1) with
      | none => .panicked
      | some n => .next { s with wg := n } (.downRecv delta i)
    else .next s .ret
  | .downRecv delta i =>
    match s.current.recv with
    | none => .blocked
    | some (_, c) => .next { s with current := c } (.downHead delta (wrapInt (i - 1)))
  | .done =>
    match wgDone s.wg with
    | none => .panicked
    | some n => .next { s with wg := n } .doneRecv
  | .doneRecv =>
    match s.current.recv with
    | none => .blocked
    | some (_, c) => .next { s with current := c } .ret
  | .wait => if wgWaitReady s.wg then .next s .ret else .blocked
  | .ret => .halted

/-- Run one goroutine alone for at most `fuel` steps.  `none`: the fuel ran out before
the call returned, parked or panicked. -/
def run : Nat → SizedWaitGroup → Pc → Option Outcome
  | _, s, .ret => some (.returned s)
  | 0, _, _ => none
  | fuel + 1, s, pc =>
    match step s pc with
    | .next s2 pc2 => run fuel s2 pc2
    | .blocked => some (.blocked s pc)
    | .panicked => some .panicked
    | .halted => some (.returned s)

/-! ## Goroutines running concurrently -/

/-- A call of the API. -/
inductive Call where
  | Add (delta : Int)
  | Done
  | Wait
deriving DecidableEq, Repr

/-- Program point at the entry of a call. -/
def Call.entry : Call → Pc
  | .Add delta => .add delta
  | .Done => .done
  | .Wait => .wait

/-- A goroutine: where it is in its current call, and the calls it makes afterwards. -/
structure Goroutine where
  pc : Pc
  todo : List Call
deriving DecidableEq, Repr

/-- The shared SizedWaitGroup and the goroutines using it. -/
structure Config where
  shared : SizedWaitGroup
  procs : List Goroutine
deriving DecidableEq, Repr

/-- What happens next in the system. -/
inductive Event where
  /-- a new goroutine starts; it will make the calls `prog` in order -/
  | spawn (prog : List Call)
  /-- the scheduler lets goroutine number `k` take one step -/
  | sched (k : Nat)
deriving DecidableEq, Repr

/-- One step of goroutine `g`: start its next call when the current one has returned,
otherwise one step of the current call.  `none`: `g` cannot move (it is parked, it has
finished, or it panics and the program ends). -/
def Goroutine.advance (s : SizedWaitGroup) (g : Goroutine) : Option (SizedWaitGroup × Goroutine) :=
  match g.pc, g.todo with
  | .ret, [] => none
  | .ret, c :: rest => some (s, { pc := c.entry, todo := rest })
  | pc, todo =>
    match step s pc with
    | .next s2 pc2 => some (s2, { pc := pc2, todo := todo })
    | _ => none

/-- One event.  `none`: the event cannot happen in this configuration. -/
def exec (cfg : Config) : Event → Option Config
  | .spawn prog => some { cfg with procs := cfg.procs ++ [{ pc := .ret, todo := prog }] }
  | .sched k =>
    match cfg.procs[k]? with
    | none => none
    | some g =>
      match g.advance cfg.shared with
      | none => none
      | some (s2, g2) => some { shared := s2, procs := cfg.procs.set k g2 }

/-- A sequence of events, in order. -/
def execAll (cfg : Config) : List Event → Option Config
  | [] => some cfg
  | e :: es =>
    match exec cfg e with
    | none => none
    | some cfg2 => execAll cfg2 es

/-- Configuration right after `New(limit)`: no goroutine uses the instance yet. -/
def initConfig (limit : Int) : Config := { shared := New limit, procs := [] }

/-- Configurations reachable from `New(limit)` under some schedule. -/
def Reachable (limit : Int) (cfg : Config) : Prop :=
  ∃ es : List Event, execAll (initConfig limit) es = some cfg

/-! ## Sequences of calls by one goroutine -/

/-- Run the calls in order on a state nobody else touches; stop at the first call that
does not return. -/
def call (s : SizedWaitGroup) : Call → Outcome
  | .Add delta => Add s delta
  | .Done => Done s
  | .Wait => Wait s

/-- Calls in sequence; the outcome is that of the first call that does not return, or of
the last call. -/
def calls (s : SizedWaitGroup) : List Call → Outcome
  | [] => .returned s
  | c :: cs =>
    match call s c with
    | .returned s2 => calls s2 cs
    | o => o

/-! ## Well-formed states -/

/-- State invariant of a SizedWaitGroup built by `New` and driven by its methods: the
channel has the capacity `Size`, it holds at most `Size` values, and the WaitGroup
counter is not negative. -/
def Valid (s : SizedWaitGroup) : Prop :=
  s.current.cap = s.Size ∧ (tokens s : Int) ≤ s.Size ∧ 0 ≤ s.wg

instance (s : SizedWaitGroup) : Decidable (Valid s) := by
  unfold Valid; infer_instance

/-! ## Calls that take nothing out of the gate -/

/-- Calls that never receive from the channel: `Add` with `delta >= 0`, and `Wait`. -/
def Call.admitsOnly : Call → Bool
  | .Add delta => decide (0 ≤ delta)
  | .Done => false
  | .Wait => true

/-- Program points of the calls that never receive from the channel. -/
def Pc.admitsOnly : Pc → Bool
  | .add delta => decide (0 ≤ delta)
  | .upHead _ _ => true
  | .upSend _ _ => true
  | .wait => true
  | .ret => true
  | .downHead _ _ => false
  | .downRecv _ _ => false
  | .done => false
  | .doneRecv => false

/-- Goroutines that are not in, and will not make, a call that receives from the channel. -/
def Goroutine.admitsOnly (g : Goroutine) : Bool :=
  g.pc.admitsOnly && g.todo.all Call.admitsOnly

/-- Events in which no `Done` and no `Add` with a negative delta is started. -/
def Event.admitsOnly : Event → Bool
  | .spawn prog => prog.all Call.admitsOnly
  | .sched _ => true

/-! ## Example configurations -/

/-- Schedule in which two goroutines call `Add(1)` on `New(1)` and run as far as they can. -/
def twoAddsSchedule : List Event :=
  [.spawn [.Add 1], .spawn [.Add 1], .sched 0, .sched 1, .sched 0, .sched 1, .sched 0,
    .sched 1, .sched 0, .sched 0]

/-- Configuration reached by `twoAddsSchedule`: the first goroutine has returned from
`Add(1)`, the second has counted itself and is parked at the send. -/
def twoAddsConfig : Config :=
  Config.mk (SizedWaitGroup.mk 1 (Chan.mk 1 [true]) 2)
    [Goroutine.mk .ret [], Goroutine.mk (.upSend 1 0) []]

/-- State of an instance of capacity `k` in which `held` tokens are in the gate and the
completion counter is `count`. -/
def gateState (k : Int) (held : Nat) (count : Int) : SizedWaitGroup :=
  { Size := k, current := { cap := k, buf := List.replicate held true }, wg := count }

/-! ## The scenario of five tasks on `New(2)` -/

/-- Calls of one task of the scenario: `g.Add(1); <work>; g.Done()`.  The work touches
nothing shared; a task is inside it when `Add(1)` has returned and `Done()` is not yet
entered. -/
def taskProg : List Call := [.Add 1, .Done]

/-- The scenario before anything runs: `g := New(2)`, the five spawned tasks (goroutines
0 to 4), and the goroutine that calls `g.Wait()` (goroutine 5). -/
def fiveTasksConfig : Config :=
  Config.mk (New 2) (List.replicate 5 (Goroutine.mk .ret taskProg) ++ [Goroutine.mk .ret [.Wait]])

/-- The task has not counted itself yet: it is before the `s.wg.Add(1)` of its `Add(1)`. -/
def Goroutine.notCounted (g : Goroutine) : Bool :=
  decide (g = Goroutine.mk .ret [.Add 1, .Done] ∨ g = Goroutine.mk (.add 1) [.Done] ∨
    g = Goroutine.mk (.upHead 1 0) [.Done])

/-- The task is counted: it is after the `s.wg.Add(1)` of its `Add(1)` and before the
`s.wg.Done()` of its `Done()`, be it parked at the gate, inside its work, or entering
`Done()`. -/
def Goroutine.counted (g : Goroutine) : Bool :=
  decide (g = Goroutine.mk (.upSend 1 0) [.Done] ∨ g = Goroutine.mk (.upHead 1 1) [.Done] ∨
    g = Goroutine.mk .ret [.Done] ∨ g = Goroutine.mk .done [])

/-- The task has completed its work and the `s.wg.Done()` of its `Done()`. -/
def Goroutine.released (g : Goroutine) : Bool :=
  decide (g = Goroutine.mk .doneRecv [] ∨ g = Goroutine.mk .ret [])

/-- The goroutine is at one of the program points of a task. -/
def Goroutine.isTask (g : Goroutine) : Bool := g.notCounted || g.counted || g.released

/-- The goroutine is at one of the program points of the caller of `Wait()`. -/
def Goroutine.isWaiter (g : Goroutine) : Bool :=
  decide (g = Goroutine.mk .ret [.Wait] ∨ g = Goroutine.mk .wait [] ∨ g = Goroutine.mk .ret [])

/-- What the task contributes to the completion counter. -/
def Goroutine.units (g : Goroutine) : Int := if g.counted then 1 else 0

/-- Invariant of the scenario: five tasks and the waiter, and the completion counter is
the number of counted tasks. -/
def TasksInv (cfg : Config) : Prop :=
  ∃ g0 g1 g2 g3 g4 w : Goroutine, cfg.procs = [g0, g1, g2, g3, g4, w] ∧
    g0.isTask = true ∧ g1.isTask = true ∧ g2.isTask = true ∧ g3.isTask = true ∧
    g4.isTask = true ∧ w.isWaiter = true ∧
    cfg.shared.wg = g0.units + g1.units + g2.units + g3.units + g4.units

/-- Schedule in which the caller of `Wait()` runs before any task. -/
def waitFirstSchedule : List Nat := [5, 5]

/-- Schedule in which task 0 runs from its `Add(1)` to the end of its `Done()`, then the
caller of `Wait()` enters `Wait()`. -/
def oneTaskThenWait : List Nat := [0, 0, 0, 0, 0, 0, 0, 0, 5]

/-- Configuration reached by `oneTaskThenWait`. -/
def oneTaskThenWaitConfig : Config :=
  Config.mk (New 2)
    [Goroutine.mk .ret [], Goroutine.mk .ret taskProg, Goroutine.mk .ret taskProg,
      Goroutine.mk .ret taskProg, Goroutine.mk .ret taskProg, Goroutine.mk .wait []]

/-- Configuration after `Wait()` has returned in `oneTaskThenWaitConfig`. -/
def oneTaskWaitedConfig : Config :=
  Config.mk (New 2)
    [Goroutine.mk .ret [], Goroutine.mk .ret taskProg, Goroutine.mk .ret taskProg,
      Goroutine.mk .ret taskProg, Goroutine.mk .ret taskProg, Goroutine.mk .ret []]

/-- Configuration reached by `waitFirstSchedule`: `Wait()` has returned and no task has
started. -/
def waitFirstConfig : Config :=
  Config.mk (New 2)
    [Goroutine.mk .ret taskProg, Goroutine.mk .ret taskProg, Goroutine.mk .ret taskProg,
      Goroutine.mk .ret taskProg, Goroutine.mk .ret taskProg, Goroutine.mk .ret []]

/-! ## Basic facts about the primitives -/

theorem send_of_room (c : Chan) (v : Bool) (h : (c.buf.length : Int) < c.cap) :
    c.send v = some { cap := c.cap, buf := c.buf ++ [v] } := by
  simp [Chan.send, h]

theorem send_eq_some (c d : Chan) (v : Bool) (h : c.send v = some d) :
    (c.buf.length : Int) < c.cap ∧ d = { cap := c.cap, buf := c.buf ++ [v] } := by
  unfold Chan.send at h
  split at h
  · rename_i hlt
    exact ⟨hlt, by simpa using h.symm⟩
  · simp at h

theorem recv_eq_some (c d : Chan) (v : Bool) (h : c.recv = some (v, d)) :
    c.buf = v :: d.buf ∧ d.cap = c.cap := by
  unfold Chan.recv at h
  split at h
  · simp at h
  · rename_i w rest hb
    simp only [Option.some.injEq, Prod.mk.injEq] at h
    obtain ⟨h1, h2⟩ := h
    subst h1 h2
    exact ⟨hb, rfl⟩

theorem recv_of_cons (c : Chan) (v : Bool) (rest : List Bool) (h : c.buf = v :: rest) :
    c.recv = some (v, { cap := c.cap, buf := rest }) := by
  unfold Chan.recv
  split
  · rename_i hb
    rw [hb] at h
    cases h
  · rename_i w r hb
    rw [hb] at h
    cases h
    rfl

theorem recv_of_nil (c : Chan) (h : c.buf = []) : c.recv = none := by
  unfold Chan.recv
  split
  · rfl
  · rename_i w r hb
    rw [hb] at h
    cases h

theorem wgAdd_eq_some (n delta m : Int) (h : wgAdd n delta = some m) :
    m = n + delta ∧ 0 ≤ m := by
  unfold wgAdd at h
  split at h
  · simp at h
  · rename_i hlt
    simp only [Option.some.injEq] at h
    omega

theorem wgAdd_of_nonneg (n delta : Int) (h : 0 ≤ n + delta) : wgAdd n delta = some (n + delta) := by
  simp [wgAdd, not_lt.mpr h]

theorem New_valid (limit : Int) : Valid (New limit) := by
  unfold Valid New tokens makeChan
  simp only [List.length_nil, Nat.cast_zero, le_refl, and_true, true_and]
  split <;> omega

/-- A step keeps the state well formed and never changes `Size`. -/
theorem step_valid (s t : SizedWaitGroup) (pc pc2 : Pc) (hv : Valid s)
    (h : step s pc = .next t pc2) : Valid t ∧ t.Size = s.Size := by
  obtain ⟨hcap, htok, hwg⟩ := hv
  unfold tokens at htok
  cases pc with
  | add delta =>
    simp only [step] at h
    split at h <;> (cases h; exact ⟨⟨hcap, htok, hwg⟩, rfl⟩)
  | upHead delta i =>
    simp only [step] at h
    split at h
    · split at h
      · cases h
      · rename_i n hn
        cases h
        exact ⟨⟨hcap, htok, (wgAdd_eq_some _ _ _ hn).2⟩, rfl⟩
    · cases h
      exact ⟨⟨hcap, htok, hwg⟩, rfl⟩
  | upSend delta i =>
    simp only [step] at h
    split at h
    · cases h
    · rename_i c hc
      cases h
      obtain ⟨hlt, hd⟩ := send_eq_some _ _ _ hc
      subst hd
      refine ⟨⟨hcap, ?_, hwg⟩, rfl⟩
      simp only [tokens, List.length_append, List.length_singleton, Nat.cast_add, Nat.cast_one]
      omega
  | downHead delta i =>
    simp only [step] at h
    split at h
    · split at h
      · cases h
      · rename_i n hn
        cases h
        exact ⟨⟨hcap, htok, (wgAdd_eq_some _ _ _ hn).2⟩, rfl⟩
    · cases h
      exact ⟨⟨hcap, htok, hwg⟩, rfl⟩
  | downRecv delta i =>
    simp only [step] at h
    split at h
    · cases h
    · rename_i v c hc
      cases h
      obtain ⟨hb, hd⟩ := recv_eq_some _ _ _ hc
      refine ⟨⟨by simpa [hd] using hcap, ?_, hwg⟩, rfl⟩
      rw [hb] at htok
      simp only [tokens, List.length_cons, Nat.cast_add, Nat.cast_one] at htok ⊢
      omega
  | done =>
    simp only [step] at h
    split at h
    · cases h
    · rename_i n hn
      cases h
      exact ⟨⟨hcap, htok, (wgAdd_eq_some _ _ _ hn).2⟩, rfl⟩
  | doneRecv =>
    simp only [step] at h
    split at h
    · cases h
    · rename_i v c hc
      cases h
      obtain ⟨hb, hd⟩ := recv_eq_some _ _ _ hc
      refine ⟨⟨by simpa [hd] using hcap, ?_, hwg⟩, rfl⟩
      rw [hb] at htok
      simp only [tokens, List.length_cons, Nat.cast_add, Nat.cast_one] at htok ⊢
      omega
  | wait =>
    simp only [step] at h
    split at h
    · cases h
      exact ⟨⟨hcap, htok, hwg⟩, rfl⟩
    · cases h
  | ret => simp [step] at h

theorem advance_valid (s t : SizedWaitGroup) (g g2 : Goroutine) (hv : Valid s)
    (h : g.advance s = some (t, g2)) : Valid t ∧ t.Size = s.Size := by
  unfold Goroutine.advance at h
  split at h
  · cases h
  · cases h
    exact ⟨hv, rfl⟩
  · split at h
    · rename_i s2 pc2 hs
      cases h
      exact step_valid _ _ _ _ hv hs
    · cases h

theorem exec_valid (cfg cfg2 : Config) (e : Event) (hv : Valid cfg.shared)
    (h : exec cfg e = some cfg2) : Valid cfg2.shared ∧ cfg2.shared.Size = cfg.shared.Size := by
  cases e with
  | spawn prog =>
    simp only [exec, Option.some.injEq] at h
    subst h
    exact ⟨hv, rfl⟩
  | sched k =>
    simp only [exec] at h
    split at h
    · cases h
    · split at h
      · cases h
      · rename_i g hg s2 g2 ha
        cases h
        exact advance_valid _ _ _ _ hv ha

theorem execAll_valid (es : List Event) (cfg cfg2 : Config) (hv : Valid cfg.shared)
    (h : execAll cfg es = some cfg2) :
    Valid cfg2.shared ∧ cfg2.shared.Size = cfg.shared.Size := by
  induction es generalizing cfg with
  | nil =>
    simp only [execAll, Option.some.injEq] at h
    subst h
    exact ⟨hv, rfl⟩
  | cons e es ih =>
    simp only [execAll] at h
    split at h
    · cases h
    · rename_i c1 he
      obtain ⟨hv1, hs1⟩ := exec_valid _ _ _ hv he
      obtain ⟨hv2, hs2⟩ := ih c1 hv1 h
      exact ⟨hv2, hs2.trans hs1⟩

/-! ## The loops of Add -/

theorem wrapInt_pred (i : Int) (hlo : minInt < i) (hhi : i ≤ maxInt) : wrapInt (i - 1) = i - 1 := by
  unfold minInt at hlo
  unfold maxInt at hhi
  unfold wrapInt
  omega

/-- With room for all remaining units, the admitting loop returns, having counted and
admitted each of them. -/
theorem addUp_returns (n : Nat) : ∀ (delta i : Int) (s : SizedWaitGroup),
    delta - i = n → 0 ≤ s.wg → (tokens s : Int) + n ≤ s.current.cap →
    addUp delta i s = .returned
      { Size := s.Size,
        current := { cap := s.current.cap, buf := s.current.buf ++ List.replicate n true },
        wg := s.wg + n } := by
  induction n with
  | zero =>
    intro delta i s h _ _
    rw [addUp]
    have hge : ¬ i < delta := by omega
    simp [hge]
  | succ n ih =>
    intro delta i s h hwg hroom
    unfold tokens at hroom
    have hlt : i < delta := by omega
    rw [addUp, if_pos hlt, wgAdd_of_nonneg _ _ (by omega)]
    simp only
    rw [send_of_room _ _ (by push_cast at hroom; omega)]
    simp only
    rw [ih delta (i + 1) _ (by push_cast at h; omega) (by simp only; omega)
      (by simp only [tokens, List.length_append, List.length_singleton]; push_cast at hroom ⊢; omega)]
    simp only [List.append_assoc, List.singleton_append, List.replicate_succ, Nat.cast_add,
      Nat.cast_one, Outcome.returned.injEq, SizedWaitGroup.mk.injEq, true_and]
    omega

/-- The releasing loop started at `i = delta` runs its body once: after `i--` the test
`i >= delta` fails, unless `i--` wraps around, which needs `delta` to be the least `int`. -/
theorem addDown_once (delta : Int) (s : SizedWaitGroup) (hlo : minInt < delta)
    (hhi : delta ≤ maxInt) :
    addDown delta delta s =
      match wgAdd s.wg (-1) with
      | none => .panicked
      | some n =>
        match s.current.recv with
        | none => .blocked { s with wg := n } (.downRecv delta delta)
        | some (_, c) => .returned { s with wg := n, current := c } := by
  rw [addDown, if_pos (le_refl delta)]
  split
  · rfl
  · rename_i n hn
    split
    · split <;> simp_all
    · rename_i v c hc
      simp only [hc]
      rw [addDown, wrapInt_pred delta hlo hhi, if_neg (by omega)]

/-! ## A full gate stays full while nobody receives -/

/-- Inside a call, a goroutine moves by a step of that call. -/
theorem advance_in_call (s : SizedWaitGroup) (pc : Pc) (todo : List Call) (hpc : pc ≠ .ret) :
    (Goroutine.mk pc todo).advance s =
      match step s pc with
      | .next s2 pc2 => some (s2, Goroutine.mk pc2 todo)
      | _ => none := by
  cases pc <;> first | exact absurd rfl hpc | rfl

theorem run_ret (fuel : Nat) (s : SizedWaitGroup) : run fuel s .ret = some (.returned s) := by
  cases fuel <;> rfl

theorem run_succ (fuel : Nat) (s : SizedWaitGroup) (pc : Pc) (hpc : pc ≠ .ret) :
    run (fuel + 1) s pc =
      match step s pc with
      | .next s2 pc2 => run fuel s2 pc2
      | .blocked => some (.blocked s pc)
      | .panicked => some .panicked
      | .halted => some (.returned s) := by
  cases pc <;> first | exact absurd rfl hpc | rfl

/-- Run alone from the head of the admitting loop, a goroutine ends as `addUp` says. -/
theorem run_addUp (n : Nat) : ∀ (delta i : Int) (s : SizedWaitGroup), (delta - i).toNat = n →
    ∃ fuel, run fuel s (.upHead delta i) = some (addUp delta i s) := by
  induction n with
  | zero =>
    intro delta i s h
    refine ⟨1, ?_⟩
    have hge : ¬ i < delta := by omega
    rw [run_succ 0 s _ (by simp), addUp, if_neg hge]
    simp only [step, if_neg hge]
    exact run_ret 0 s
  | succ n ih =>
    intro delta i s h
    have hlt : i < delta := by omega
    cases hw : wgAdd s.wg 1 with
    | none =>
      refine ⟨1, ?_⟩
      rw [run_succ 0 s _ (by simp), addUp, if_pos hlt]
      simp only [step, if_pos hlt, hw]
    | some m =>
      cases hc : s.current.send true with
      | none =>
        refine ⟨2, ?_⟩
        rw [run_succ 1 s _ (by simp), addUp, if_pos hlt]
        simp only [step, if_pos hlt, hw]
        rw [run_succ 0 _ _ (by simp)]
        simp only [step, hc]
      | some c =>
        obtain ⟨fuel, hf⟩ := ih delta (i + 1) { s with wg := m, current := c } (by omega)
        refine ⟨fuel + 2, ?_⟩
        rw [run_succ (fuel + 1) s _ (by simp), addUp, if_pos hlt]
        simp only [step, if_pos hlt, hw]
        rw [run_succ fuel _ _ (by simp)]
        simp only [step, hc]
        exact hf

/-- Run alone from the head of the releasing loop, a goroutine ends as `addDown` says. -/
theorem run_addDown (n : Nat) : ∀ (delta i : Int) (s : SizedWaitGroup),
    s.current.buf.length = n →
    ∃ fuel, run fuel s (.downHead delta i) = some (addDown delta i s) := by
  induction n with
  | zero =>
    intro delta i s h
    have hnil : s.current.buf = [] := List.length_eq_zero.mp h
    by_cases hge : i ≥ delta
    · cases hw : wgAdd s.wg (-1) with
      | none =>
        refine ⟨1, ?_⟩
        rw [run_succ 0 s _ (by simp), addDown, if_pos hge]
        simp only [step, if_pos hge, hw]
      | some m =>
        refine ⟨2, ?_⟩
        rw [run_succ 1 s _ (by simp), addDown, if_pos hge]
        simp only [step, if_pos hge, hw]
        rw [run_succ 0 _ _ (by simp)]
        simp only [step, recv_of_nil _ hnil]
        split
        · rfl
        · rename_i hc
          rw [recv_of_nil _ hnil] at hc
          cases hc
    · refine ⟨1, ?_⟩
      rw [run_succ 0 s _ (by simp), addDown, if_neg hge]
      simp only [step, if_neg hge]
      exact run_ret 0 s
  | succ n ih =>
    intro delta i s h
    by_cases hge : i ≥ delta
    · cases hw : wgAdd s.wg (-1) with
      | none =>
        refine ⟨1, ?_⟩
        rw [run_succ 0 s _ (by simp), addDown, if_pos hge]
        simp only [step, if_pos hge, hw]
      | some m =>
        obtain ⟨v, rest, hb⟩ : ∃ v rest, s.current.buf = v :: rest := by
          cases hb : s.current.buf with
          | nil => simp [hb] at h
          | cons v rest => exact ⟨v, rest, rfl⟩
        have hr := recv_of_cons _ v rest hb
        obtain ⟨fuel, hf⟩ := ih delta (wrapInt (i - 1))
          { s with wg := m, current := { cap := s.current.cap, buf := rest } }
          (by simpa [hb] using h)
        refine ⟨fuel + 2, ?_⟩
        rw [run_succ (fuel + 1) s _ (by simp), addDown, if_pos hge]
        simp only [step, if_pos hge, hw]
        rw [run_succ fuel _ _ (by simp)]
        simp only [step, hr]
        rw [hf]
        split
        · rename_i hc
          rw [hr] at hc
          cases hc
        · rename_i w c hc
          rw [hr] at hc
          cases hc
          rfl
    · refine ⟨1, ?_⟩
      rw [run_succ 0 s _ (by simp), addDown, if_neg hge]
      simp only [step, if_neg hge]
      exact run_ret 0 s

/-- A goroutine running `Add(delta)` alone ends as `Add` says. -/
theorem run_Add (s : SizedWaitGroup) (delta : Int) :
    ∃ fuel, run fuel s (.add delta) = some (Add s delta) := by
  by_cases hd : delta ≥ 0
  · obtain ⟨fuel, hf⟩ := run_addUp _ delta 0 s rfl
    refine ⟨fuel + 1, ?_⟩
    rw [run_succ fuel s _ (by simp)]
    simp only [step, if_pos hd, Add]
    exact hf
  · obtain ⟨fuel, hf⟩ := run_addDown _ delta delta s rfl
    refine ⟨fuel + 1, ?_⟩
    rw [run_succ fuel s _ (by simp)]
    simp only [step, if_neg hd, Add]
    exact hf

/-- A goroutine running `Done()` alone ends as `Done` says. -/
theorem run_Done (s : SizedWaitGroup) : run 2 s .done = some (Done s) := by
  rw [run_succ 1 s _ (by simp)]
  unfold Done
  simp only [step]
  cases wgDone s.wg with
  | none => rfl
  | some m =>
    simp only
    rw [run_succ 0 _ _ (by simp)]
    simp only [step]
    cases s.current.recv with
    | none => rfl
    | some p => rfl

/-- A goroutine running `Wait()` alone ends as `Wait` says. -/
theorem run_Wait (s : SizedWaitGroup) : run 1 s .wait = some (Wait s) := by
  rw [run_succ 0 s _ (by simp)]
  unfold Wait
  simp only [step]
  by_cases h : wgWaitReady s.wg = true
  · simp only [if_pos h]
    exact run_ret 0 s
  · simp only [if_neg h]

/-! ## Counter and gate move together -/

/-- One unfolding of the releasing loop. -/
theorem addDown_eq (delta i : Int) (s : SizedWaitGroup) :
    addDown delta i s =
      if i ≥ delta then
        match wgAdd s.wg (-1) with
        | none => .panicked
        | some n =>
          match s.current.recv with
          | none => .blocked { s with wg := n } (.downRecv delta i)
          | some (_, c) => addDown delta (wrapInt (i - 1)) { s with wg := n, current := c }
      else .returned s := by
  rw [addDown]
  split
  · split
    · rfl
    · split <;> simp_all
  · rfl

/-- When the admitting loop returns, counter and tokens have grown by the same amount. -/
theorem addUp_balance (n : Nat) : ∀ (delta i : Int) (s t : SizedWaitGroup),
    (delta - i).toNat = n → addUp delta i s = .returned t →
    t.wg - tokens t = s.wg - tokens s := by
  induction n with
  | zero =>
    intro delta i s t hn h
    have hge : ¬ i < delta := by omega
    rw [addUp, if_neg hge] at h
    cases h
    rfl
  | succ n ih =>
    intro delta i s t hn h
    have hlt : i < delta := by omega
    rw [addUp, if_pos hlt] at h
    cases hw : wgAdd s.wg 1 with
    | none => simp [hw] at h
    | some m =>
      cases hc : s.current.send true with
      | none => simp [hw, hc] at h
      | some c =>
        simp only [hw, hc] at h
        have h1 := ih delta (i + 1) _ t (by omega) h
        obtain ⟨hm, -⟩ := wgAdd_eq_some _ _ _ hw
        obtain ⟨-, hd⟩ := send_eq_some _ _ _ hc
        subst hd
        simp only [tokens, List.length_append, List.length_singleton] at h1 ⊢
        push_cast at h1
        omega

/-- When the releasing loop returns, counter and tokens have shrunk by the same amount. -/
theorem addDown_balance (n : Nat) : ∀ (delta i : Int) (s t : SizedWaitGroup),
    s.current.buf.length = n → addDown delta i s = .returned t →
    t.wg - tokens t = s.wg - tokens s := by
  induction n using Nat.strong_induction_on with
  | _ n ih =>
    intro delta i s t hn h
    rw [addDown_eq] at h
    by_cases hge : i ≥ delta
    · rw [if_pos hge] at h
      cases hw : wgAdd s.wg (-1) with
      | none => simp [hw] at h
      | some m =>
        cases hc : s.current.recv with
        | none => simp [hw, hc] at h
        | some p =>
          obtain ⟨v, c⟩ := p
          simp only [hw, hc] at h
          obtain ⟨hm, -⟩ := wgAdd_eq_some _ _ _ hw
          obtain ⟨hb, -⟩ := recv_eq_some _ _ _ hc
          have hlen : c.buf.length < n := by
            rw [← hn, hb]
            simp
          have h1 := ih c.buf.length hlen delta (wrapInt (i - 1)) _ t rfl h
          simp only [tokens, hb, List.length_cons] at h1 ⊢
          push_cast
          omega
    · rw [if_neg hge] at h
      cases h
      rfl

/-- With as many tokens in the gate as units counted, the releasing loop never parks:
its receive always finds a token, until the counter update panics or the loop ends. -/
theorem addDown_not_blocked (n : Nat) : ∀ (delta i : Int) (s : SizedWaitGroup),
    s.current.buf.length = n → s.wg = tokens s →
    ∀ t pc, addDown delta i s ≠ .blocked t pc := by
  induction n using Nat.strong_induction_on with
  | _ n ih =>
    intro delta i s hn hbal t pc h
    rw [addDown_eq] at h
    by_cases hge : i ≥ delta
    · rw [if_pos hge] at h
      cases hw : wgAdd s.wg (-1) with
      | none => simp [hw] at h
      | some m =>
        obtain ⟨hm, hm0⟩ := wgAdd_eq_some _ _ _ hw
        cases hb : s.current.buf with
        | nil =>
          simp only [tokens, hb, List.length_nil] at hbal
          push_cast at hbal
          omega
        | cons v rest =>
          have hr := recv_of_cons _ v rest hb
          simp only [hw, hr] at h
          refine ih rest.length (by rw [← hn, hb]; simp) delta (wrapInt (i - 1)) _ rfl ?_ t pc h
          simp only [tokens, hb, List.length_cons] at hbal ⊢
          push_cast at hbal
          omega
    · rw [if_neg hge] at h
      cases h

/-- A call that returns keeps the difference between counter and tokens. -/
theorem call_balance (s t : SizedWaitGroup) (c : Call) (h : call s c = .returned t) :
    t.wg - tokens t = s.wg - tokens s := by
  cases c with
  | Add delta =>
    simp only [call, Add] at h
    split at h
    · exact addUp_balance _ delta 0 s t rfl h
    · exact addDown_balance _ delta delta s t rfl h
  | Done =>
    simp only [call, Done] at h
    cases hw : wgDone s.wg with
    | none => simp [hw] at h
    | some m =>
      cases hc : s.current.recv with
      | none => simp [hw, hc] at h
      | some p =>
        obtain ⟨v, c⟩ := p
        simp only [hw, hc, Outcome.returned.injEq] at h
        subst h
        obtain ⟨hm, -⟩ := wgAdd_eq_some _ _ _ hw
        obtain ⟨hb, -⟩ := recv_eq_some _ _ _ hc
        simp only [tokens, hb, List.length_cons]
        push_cast
        omega
  | Wait =>
    simp only [call, Wait] at h
    split at h
    · cases h
      rfl
    · cases h

/-- After calls that all returned, the difference between counter and tokens is as
before them. -/
theorem calls_balance (cs : List Call) : ∀ (s t : SizedWaitGroup),
    calls s cs = .returned t → t.wg - tokens t = s.wg - tokens s := by
  induction cs with
  | nil =>
    intro s t h
    simp only [calls, Outcome.returned.injEq] at h
    subst h
    rfl
  | cons c cs ih =>
    intro s t h
    simp only [calls] at h
    cases hc : call s c with
    | returned s2 =>
      simp only [hc] at h
      have h1 := ih s2 t h
      have h2 := call_balance s s2 c hc
      omega
    | blocked s2 pc => simp [hc] at h
    | panicked => simp [hc] at h

theorem New_balanced (limit : Int) : (New limit).wg = tokens (New limit) := rfl

/-- With as many tokens in the gate as units counted, `Done` never parks. -/
theorem Done_not_blocked (s : SizedWaitGroup) (hbal : s.wg = tokens s) :
    ∀ t pc, Done s ≠ .blocked t pc := by
  intro t pc h
  unfold Done wgDone at h
  cases hw : wgAdd s.wg (-1) with
  | none => simp [hw] at h
  | some m =>
    obtain ⟨hm, hm0⟩ := wgAdd_eq_some _ _ _ hw
    cases hb : s.current.buf with
    | nil =>
      simp only [tokens, hb, List.length_nil] at hbal
      push_cast at hbal
      omega
    | cons v rest =>
      simp [hw, recv_of_cons _ v rest hb] at h

theorem Add_zero (s : SizedWaitGroup) : Add s 0 = .returned s := by
  unfold Add
  rw [if_pos (le_refl 0), addUp, if_neg (lt_irrefl 0)]

/-- An outcome that is not a parking is a return or a panic. -/
theorem returned_or_panicked (o : Outcome) (h : ∀ t pc, o ≠ .blocked t pc) :
    (∃ t, o = .returned t) ∨ o = .panicked := by
  cases o with
  | returned t => exact Or.inl ⟨t, rfl⟩
  | blocked t pc => exact absurd rfl (h t pc)
  | panicked => exact Or.inr rfl

/-! ## The five tasks: the counter is the number of counted tasks -/

theorem isTask_cases (g : Goroutine) (h : g.isTask = true) :
    g = Goroutine.mk .ret [.Add 1, .Done] ∨ g = Goroutine.mk (.add 1) [.Done] ∨
      g = Goroutine.mk (.upHead 1 0) [.Done] ∨ g = Goroutine.mk (.upSend 1 0) [.Done] ∨
      g = Goroutine.mk (.upHead 1 1) [.Done] ∨ g = Goroutine.mk .ret [.Done] ∨
      g = Goroutine.mk .done [] ∨ g = Goroutine.mk .doneRecv [] ∨ g = Goroutine.mk .ret [] := by
  simp only [Goroutine.isTask, Goroutine.notCounted, Goroutine.counted, Goroutine.released,
    Bool.or_eq_true, decide_eq_true_eq] at h
  tauto

theorem units_nonneg (g : Goroutine) : 0 ≤ g.units := by
  unfold Goroutine.units
  split <;> decide

/-- A task that is not counted is before its counter update or has completed its work. -/
theorem isTask_of_units_zero (g : Goroutine) (h : g.isTask = true) (hu : g.units = 0) :
    g.notCounted = true ∨ g.released = true := by
  unfold Goroutine.units at hu
  split at hu
  · cases hu
  · rename_i hc
    simp only [Goroutine.isTask, Bool.or_eq_true] at h
    tauto

/-- A step of a task leads to a program point of a task, and changes the completion
counter exactly as it changes what the task contributes to it. -/
theorem task_advance (s t : SizedWaitGroup) (g g2 : Goroutine) (hg : g.isTask = true)
    (h : g.advance s = some (t, g2)) :
    g2.isTask = true ∧ t.wg + g.units = s.wg + g2.units := by
  rcases isTask_cases g hg with rfl | rfl | rfl | rfl | rfl | rfl | rfl | rfl | rfl
  · simp only [Goroutine.advance, Option.some.injEq, Prod.mk.injEq] at h
    obtain ⟨rfl, rfl⟩ := h
    exact ⟨by decide, rfl⟩
  · rw [advance_in_call _ _ _ (by simp)] at h
    simp only [step, ge_iff_le, zero_le_one, if_true, Option.some.injEq, Prod.mk.injEq] at h
    obtain ⟨rfl, rfl⟩ := h
    exact ⟨by decide, rfl⟩
  · rw [advance_in_call _ _ _ (by simp)] at h
    simp only [step, zero_lt_one, if_true] at h
    cases hw : wgAdd s.wg 1 with
    | none => simp [hw] at h
    | some m =>
      simp only [hw, Option.some.injEq, Prod.mk.injEq] at h
      obtain ⟨rfl, rfl⟩ := h
      obtain ⟨hm, -⟩ := wgAdd_eq_some _ _ _ hw
      refine ⟨by decide, ?_⟩
      have h1 : (Goroutine.mk (.upHead 1 0) [.Done]).units = 0 := by decide
      have h2 : (Goroutine.mk (.upSend 1 0) [.Done]).units = 1 := by decide
      rw [h1, h2]
      simp only
      omega
  · rw [advance_in_call _ _ _ (by simp)] at h
    simp only [step] at h
    cases hc : s.current.send true with
    | none => simp [hc] at h
    | some c =>
      simp only [hc, Option.some.injEq, Prod.mk.injEq, zero_add] at h
      obtain ⟨rfl, rfl⟩ := h
      exact ⟨by decide, rfl⟩
  · rw [advance_in_call _ _ _ (by simp)] at h
    simp only [step, lt_irrefl, if_false, Option.some.injEq, Prod.mk.injEq] at h
    obtain ⟨rfl, rfl⟩ := h
    exact ⟨by decide, rfl⟩
  · simp only [Goroutine.advance, Option.some.injEq, Prod.mk.injEq] at h
    obtain ⟨rfl, rfl⟩ := h
    exact ⟨by decide, rfl⟩
  · rw [advance_in_call _ _ _ (by simp)] at h
    simp only [step] at h
    cases hw : wgDone s.wg with
    | none => simp [hw] at h
    | some m =>
      simp only [hw, Option.some.injEq, Prod.mk.injEq] at h
      obtain ⟨rfl, rfl⟩ := h
      obtain ⟨hm, -⟩ := wgAdd_eq_some _ _ _ hw
      refine ⟨by decide, ?_⟩
      have h1 : (Goroutine.mk .done []).units = 1 := by decide
      have h2 : (Goroutine.mk .doneRecv []).units = 0 := by decide
      rw [h1, h2]
      simp only
      omega
  · rw [advance_in_call _ _ _ (by simp)] at h
    simp only [step] at h
    cases hc : s.current.recv with
    | none => simp [hc] at h
    | some p =>
      simp only [hc, Option.some.injEq, Prod.mk.injEq] at h
      obtain ⟨rfl, rfl⟩ := h
      exact ⟨by decide, rfl⟩
  · simp [Goroutine.advance] at h

/-- A step of the caller of `Wait()` changes nothing shared, and its `Wait()` returns
only on a completion counter of zero. -/
theorem waiter_advance (s t : SizedWaitGroup) (w w2 : Goroutine) (hw : w.isWaiter = true)
    (h : w.advance s = some (t, w2)) :
    w2.isWaiter = true ∧ t = s ∧ (w = Goroutine.mk .wait [] → s.wg = 0 ∧ w2 = Goroutine.mk .ret []) := by
  simp only [Goroutine.isWaiter, decide_eq_true_eq] at hw
  rcases hw with rfl | rfl | rfl
  · simp only [Goroutine.advance, Option.some.injEq, Prod.mk.injEq] at h
    obtain ⟨rfl, rfl⟩ := h
    exact ⟨by decide, rfl, fun hne => by cases hne⟩
  · rw [advance_in_call _ _ _ (by simp)] at h
    simp only [step] at h
    by_cases hz : wgWaitReady s.wg = true
    · simp only [hz, if_true, Option.some.injEq, Prod.mk.injEq] at h
      obtain ⟨rfl, rfl⟩ := h
      refine ⟨by decide, rfl, fun _ => ⟨?_, rfl⟩⟩
      simpa [wgWaitReady] using hz
    · simp [hz] at h
  · simp [Goroutine.advance] at h

theorem exec_sched_some (cfg cfg2 : Config) (k : Nat) (h : exec cfg (.sched k) = some cfg2) :
    ∃ g s2 g2, cfg.procs[k]? = some g ∧ g.advance cfg.shared = some (s2, g2) ∧
      cfg2 = Config.mk s2 (cfg.procs.set k g2) := by
  simp only [exec] at h
  split at h
  · cases h
  · rename_i g hg
    split at h
    · cases h
    · rename_i s2 g2 ha
      simp only [Option.some.injEq] at h
      exact ⟨g, s2, g2, hg, ha, h.symm⟩

theorem fiveTasks_init : TasksInv fiveTasksConfig :=
  ⟨_, _, _, _, _, _, rfl, by decide, by decide, by decide, by decide, by decide, by decide,
    by decide⟩

/-- Every step of the scenario keeps its invariant. -/
theorem exec_fiveTasks (cfg cfg2 : Config) (k : Nat) (hinv : TasksInv cfg)
    (h : exec cfg (.sched k) = some cfg2) : TasksInv cfg2 := by
  obtain ⟨g0, g1, g2, g3, g4, w, hp, h0, h1, h2, h3, h4, hw, hsum⟩ := hinv
  obtain ⟨g, s2, gn, hg, ha, rfl⟩ := exec_sched_some cfg cfg2 k h
  rw [hp] at hg
  rcases k with _ | _ | _ | _ | _ | _ | k
  · simp only [List.getElem?_cons_zero, Option.some.injEq] at hg
    subst hg
    obtain ⟨hn, hu⟩ := task_advance _ _ _ _ h0 ha
    exact ⟨gn, g1, g2, g3, g4, w, by simp [hp], hn, h1, h2, h3, h4, hw, by simp only; omega⟩
  · simp only [zero_add, List.getElem?_cons_succ, List.getElem?_cons_zero,
      Option.some.injEq] at hg
    subst hg
    obtain ⟨hn, hu⟩ := task_advance _ _ _ _ h1 ha
    exact ⟨g0, gn, g2, g3, g4, w, by simp [hp], h0, hn, h2, h3, h4, hw, by simp only; omega⟩
  · simp only [zero_add, List.getElem?_cons_succ, List.getElem?_cons_zero,
      Option.some.injEq] at hg
    subst hg
    obtain ⟨hn, hu⟩ := task_advance _ _ _ _ h2 ha
    exact ⟨g0, g1, gn, g3, g4, w, by simp [hp], h0, h1, hn, h3, h4, hw, by simp only; omega⟩
  · simp only [zero_add, List.getElem?_cons_succ, List.getElem?_cons_zero,
      Option.some.injEq] at hg
    subst hg
    obtain ⟨hn, hu⟩ := task_advance _ _ _ _ h3 ha
    exact ⟨g0, g1, g2, gn, g4, w, by simp [hp], h0, h1, h2, hn, h4, hw, by simp only; omega⟩
  · simp only [zero_add, List.getElem?_cons_succ, List.getElem?_cons_zero,
      Option.some.injEq] at hg
    subst hg
    obtain ⟨hn, hu⟩ := task_advance _ _ _ _ h4 ha
    exact ⟨g0, g1, g2, g3, gn, w, by simp [hp], h0, h1, h2, h3, hn, hw, by simp only; omega⟩
  · simp only [zero_add, List.getElem?_cons_succ, List.getElem?_cons_zero,
      Option.some.injEq] at hg
    subst hg
    obtain ⟨hn, hs, -⟩ := waiter_advance _ _ _ _ hw ha
    subst hs
    exact ⟨g0, g1, g2, g3, g4, gn, by simp [hp], h0, h1, h2, h3, h4, hn, hsum⟩
  · simp at hg

/-- The invariant holds under every schedule of the scenario. -/
theorem execAll_fiveTasks (ks : List Nat) : ∀ cfg cfg2 : Config, TasksInv cfg →
    execAll cfg (ks.map .sched) = some cfg2 → TasksInv cfg2 := by
  induction ks with
  | nil =>
    intro cfg cfg2 hinv h
    simp only [List.map_nil, execAll, Option.some.injEq] at h
    subst h
    exact hinv
  | cons k ks ih =>
    intro cfg cfg2 hinv h
    simp only [List.map_cons, execAll] at h
    split at h
    · cases h
    · rename_i c1 he
      exact ih c1 cfg2 (exec_fiveTasks cfg c1 k hinv he) h

/-! ## Claims -/

/-- C1: in every configuration reachable from `New(limit)` under any interleaving of the
steps of any goroutines calling `Add`, `Done` and `Wait`, the number of tokens held in
the admission gate is at least 0 and at most `Size`, and `Size` is still the limit
configured by `New`. -/
theorem gate_tokens_within_limit (limit : Int) (cfg : Config) (h : Reachable limit cfg) :
    0 ≤ (tokens cfg.shared : Int) ∧ (tokens cfg.shared : Int) ≤ cfg.shared.Size ∧
      cfg.shared.Size = (New limit).Size := by
  obtain ⟨es, hes⟩ := h
  obtain ⟨hv, hs⟩ := execAll_valid es (initConfig limit) cfg (New_valid limit) hes
  exact ⟨Int.natCast_nonneg _, hv.2.1, hs⟩

/-- Witness for C1: with limit 1, two goroutines call `Add(1)`; the first is admitted and
the second is parked after its counter update, with one token in the gate. -/
theorem gate_tokens_within_limit_witness :
    Reachable 1 twoAddsConfig ∧
      0 ≤ (tokens twoAddsConfig.shared : Int) ∧
      (tokens twoAddsConfig.shared : Int) ≤ twoAddsConfig.shared.Size ∧
      twoAddsConfig.shared.Size = (New 1).Size :=
  ⟨⟨twoAddsSchedule, by decide⟩,
    gate_tokens_within_limit 1 twoAddsConfig ⟨twoAddsSchedule, by decide⟩⟩

/-- C2: `Wait` run in a state whose completion counter is greater than zero does not
return, it parks (in the sequential and in the small-step semantics); and whenever
`Wait` returns, the counter of the state it ran in is zero and the state is unchanged. -/
theorem Wait_returns_only_at_zero (s : SizedWaitGroup) :
    (0 < s.wg → Wait s = .blocked s .wait ∧ step s .wait = .blocked ∧
        ∀ t, Wait s ≠ .returned t) ∧
      (∀ t, Wait s = .returned t → s.wg = 0 ∧ t = s) := by
  constructor
  · intro h
    have hne : s.wg ≠ 0 := by omega
    simp [Wait, step, wgWaitReady, hne]
  · intro t h
    unfold Wait wgWaitReady at h
    split at h
    · rename_i hz
      simp only [Outcome.returned.injEq] at h
      exact ⟨by simpa using hz, h.symm⟩
    · cases h

/-- Witness for C2: with two units outstanding `Wait` parks. -/
theorem Wait_returns_only_at_zero_witness :
    Wait (SizedWaitGroup.mk 3 (Chan.mk 3 [true, true]) 2) =
        .blocked (SizedWaitGroup.mk 3 (Chan.mk 3 [true, true]) 2) .wait ∧
      step (SizedWaitGroup.mk 3 (Chan.mk 3 [true, true]) 2) .wait = .blocked ∧
      ∀ t, Wait (SizedWaitGroup.mk 3 (Chan.mk 3 [true, true]) 2) ≠ .returned t :=
  (Wait_returns_only_at_zero (SizedWaitGroup.mk 3 (Chan.mk 3 [true, true]) 2)).1 (by decide)

/-- C8: in every state with at least one outstanding unit and at least one held token,
`Done` returns; the completion counter has gone down by exactly one, exactly one token
(the oldest) has left the admission gate, and `Size` and the capacity are unchanged. -/
theorem Done_releases_one (s : SizedWaitGroup) (hwg : 1 ≤ s.wg) (htok : 1 ≤ tokens s) :
    ∃ t, Done s = .returned t ∧ t.wg = s.wg - 1 ∧ tokens t + 1 = tokens s ∧
      t.current.buf = s.current.buf.tail ∧ t.Size = s.Size ∧
      t.current.cap = s.current.cap := by
  unfold tokens at htok
  cases hb : s.current.buf with
  | nil => simp [hb] at htok
  | cons v rest =>
    refine ⟨{ Size := s.Size, current := { cap := s.current.cap, buf := rest }, wg := s.wg - 1 },
      ?_, rfl, ?_, ?_, rfl, rfl⟩
    · unfold Done wgDone
      rw [wgAdd_of_nonneg _ _ (by omega), recv_of_cons _ v rest hb]
      rfl
    · simp [tokens, hb]
    · simp

/-- Witness for C8: `Done` with two units outstanding. -/
theorem Done_releases_one_witness :
    ∃ t, Done (SizedWaitGroup.mk 3 (Chan.mk 3 [true, true]) 2) = .returned t ∧
      t.wg = (SizedWaitGroup.mk 3 (Chan.mk 3 [true, true]) 2).wg - 1 ∧
      tokens t + 1 = tokens (SizedWaitGroup.mk 3 (Chan.mk 3 [true, true]) 2) ∧
      t.current.buf = (SizedWaitGroup.mk 3 (Chan.mk 3 [true, true]) 2).current.buf.tail ∧
      t.Size = (SizedWaitGroup.mk 3 (Chan.mk 3 [true, true]) 2).Size ∧
      t.current.cap = (SizedWaitGroup.mk 3 (Chan.mk 3 [true, true]) 2).current.cap :=
  Done_releases_one (SizedWaitGroup.mk 3 (Chan.mk 3 [true, true]) 2) (by decide) (by decide)

/-- C5 (failing input): on `New(2)` after `Add(2)`, two units are outstanding and two
tokens held; `Add(-2)` returns with one unit still outstanding and one token still held:
it has decremented and released once, not twice. -/
theorem Add_minus_two_releases_one :
    Add (New 2) 2 = .returned (gateState 2 2 2) ∧
      Add (gateState 2 2 2) (-2) = .returned (gateState 2 1 1) ∧
      (gateState 2 1 1).wg = 1 ∧ tokens (gateState 2 1 1) = 1 := by
  refine ⟨?_, ?_, rfl, rfl⟩
  · simp [Add, addUp, New, makeChan, wgAdd, Chan.send, gateState]
  · simp [Add, addDown, wgAdd, Chan.recv, wrapInt, gateState]

/-- C6 (failing input): on `New(-1)`, `Add(100)` returns with 100 units outstanding;
`Add(-100)` then returns with 99 units still outstanding and 99 tokens still held, and
the following `Wait` parks instead of returning. -/
theorem Add_hundred_minus_hundred_Wait_parks :
    Add (New (-1)) 100 = .returned (gateState 4294967295 100 100) ∧
      Add (gateState 4294967295 100 100) (-100) = .returned (gateState 4294967295 99 99) ∧
      Wait (gateState 4294967295 99 99) = .blocked (gateState 4294967295 99 99) .wait ∧
      calls (New (-1)) [.Add 100, .Add (-100), .Wait] =
        .blocked (gateState 4294967295 99 99) .wait := by
  have h1 : Add (New (-1)) 100 = .returned (gateState 4294967295 100 100) := by
    unfold Add
    rw [if_pos (by decide)]
    rw [addUp_returns 100 100 0 (New (-1)) (by norm_num) (by simp [New])
      (by simp [New, makeChan, tokens])]
    simp [New, makeChan, gateState]
  have h2 : Add (gateState 4294967295 100 100) (-100) =
      .returned (gateState 4294967295 99 99) := by
    unfold Add
    rw [if_neg (by decide), addDown_once _ _ (by decide) (by decide)]
    simp only [gateState]
    rw [wgAdd_of_nonneg _ _ (by decide),
      recv_of_cons _ true (List.replicate 99 true) (by simp [List.replicate_succ])]
    simp
  have h3 : Wait (gateState 4294967295 99 99) = .blocked (gateState 4294967295 99 99) .wait := by
    simp [Wait, wgWaitReady, gateState]
  refine ⟨h1, h2, h3, ?_⟩
  simp only [calls, call, h1, h2, h3]

/-- C10 (failing input): on `New(2)` after `Add(1)`, one unit is outstanding; `Add(-2)`
asks to release more than that and returns normally, leaving no unit outstanding and
no token held; it does not panic. -/
theorem Add_minus_two_on_one_returns :
    Add (New 2) 1 = .returned (gateState 2 1 1) ∧
      Add (gateState 2 1 1) (-2) = .returned (gateState 2 0 0) ∧
      Add (gateState 2 1 1) (-2) ≠ .panicked := by
  have h2 : Add (gateState 2 1 1) (-2) = .returned (gateState 2 0 0) := by
    simp [Add, addDown, wgAdd, Chan.recv, wrapInt, gateState]
  refine ⟨?_, h2, ?_⟩
  · simp [Add, addUp, New, makeChan, wgAdd, Chan.send, gateState]
  · rw [h2]
    simp

/-- C11: after `New(limit)` followed by any finite sequence of calls (`Add`, `Done`, also
`Wait`) made one after the other, each of which returned, the completion counter
equals the number of tokens held in the admission gate. -/
theorem counter_equals_tokens (limit : Int) (cs : List Call) (s : SizedWaitGroup)
    (h : calls (New limit) cs = .returned s) : s.wg = tokens s := by
  have h1 := calls_balance cs (New limit) s h
  have h2 := New_balanced limit
  omega

/-- Witness for C11: `New(2)`, `Add(2)`, `Done()` leaves one unit and one token. -/
theorem counter_equals_tokens_witness :
    calls (New 2) [.Add 2, .Done] = .returned (gateState 2 1 1) ∧
      (gateState 2 1 1).wg = tokens (gateState 2 1 1) :=
  ⟨by simp [calls, call, Add, addUp, Done, wgDone, New, makeChan, wgAdd, Chan.send, Chan.recv,
      gateState],
    counter_equals_tokens 2 [.Add 2, .Done] (gateState 2 1 1)
      (by simp [calls, call, Add, addUp, Done, wgDone, New, makeChan, wgAdd, Chan.send,
        Chan.recv, gateState])⟩

/-- C12: in every state reached from `New(limit)` by calls that all returned, `Done` and
`Add(delta)` with `delta <= 0` never park on the admission gate: each of them either
returns or panics. -/
theorem release_calls_never_park (limit : Int) (cs : List Call) (s : SizedWaitGroup)
    (h : calls (New limit) cs = .returned s) (delta : Int) (hd : delta ≤ 0) :
    (∀ t pc, Add s delta ≠ .blocked t pc) ∧ (∀ t pc, Done s ≠ .blocked t pc) ∧
      ((∃ t, Add s delta = .returned t) ∨ Add s delta = .panicked) ∧
      ((∃ t, Done s = .returned t) ∨ Done s = .panicked) := by
  have hbal : s.wg = tokens s := by
    have h1 := calls_balance cs (New limit) s h
    have h2 := New_balanced limit
    omega
  have hadd : ∀ t pc, Add s delta ≠ .blocked t pc := by
    intro t pc
    by_cases h0 : delta = 0
    · subst h0
      rw [Add_zero]
      simp
    · unfold Add
      rw [if_neg (by omega)]
      exact addDown_not_blocked _ delta delta s rfl hbal t pc
  exact ⟨hadd, Done_not_blocked s hbal, returned_or_panicked _ hadd,
    returned_or_panicked _ (Done_not_blocked s hbal)⟩

/-- Witness for C12: after `New(2)`, `Add(1)`, the calls `Add(-3)` and `Done()` do not
park. -/
theorem release_calls_never_park_witness :
    calls (New 2) [.Add 1] = .returned (gateState 2 1 1) ∧
      (∀ t pc, Add (gateState 2 1 1) (-3) ≠ .blocked t pc) ∧
      (∀ t pc, Done (gateState 2 1 1) ≠ .blocked t pc) ∧
      ((∃ t, Add (gateState 2 1 1) (-3) = .returned t) ∨
        Add (gateState 2 1 1) (-3) = .panicked) ∧
      ((∃ t, Done (gateState 2 1 1) = .returned t) ∨ Done (gateState 2 1 1) = .panicked) :=
  ⟨by simp [calls, call, Add, addUp, New, makeChan, wgAdd, Chan.send, gateState],
    release_calls_never_park 2 [.Add 1] (gateState 2 1 1)
      (by simp [calls, call, Add, addUp, New, makeChan, wgAdd, Chan.send, gateState])
      (-3) (by decide)⟩

/-- C13: in a state with no outstanding unit (completion counter zero) `Wait` returns at
once and leaves the state as it is, in the sequential and in the small-step semantics;
in particular `Wait` on `New(limit)` returns at once for every `limit`. -/
theorem Wait_returns_at_zero (s : SizedWaitGroup) :
    (s.wg = 0 → Wait s = .returned s ∧ step s .wait = .next s .ret ∧
        run 1 s .wait = some (.returned s)) ∧
      (∀ limit : Int, Wait (New limit) = .returned (New limit)) := by
  have key : ∀ u : SizedWaitGroup, u.wg = 0 → Wait u = .returned u := by
    intro u hu
    simp [Wait, wgWaitReady, hu]
  refine ⟨fun h => ⟨key s h, ?_, ?_⟩, fun limit => key _ rfl⟩
  · simp [step, wgWaitReady, h]
  · rw [run_Wait, key s h]

/-- Witness for C13: a state of size 3 with nothing outstanding. -/
theorem Wait_returns_at_zero_witness :
    Wait (gateState 3 0 0) = .returned (gateState 3 0 0) ∧
      step (gateState 3 0 0) .wait = .next (gateState 3 0 0) .ret ∧
      run 1 (gateState 3 0 0) .wait = some (.returned (gateState 3 0 0)) :=
  (Wait_returns_at_zero (gateState 3 0 0)).1 rfl

/-- C16: in every state `Add(0)` returns, without parking or panicking, and leaves the
state (completion counter, held tokens, `Size`) exactly as it was; run step by step it
touches no shared operation. -/
theorem Add_zero_is_noop (s : SizedWaitGroup) :
    Add s 0 = .returned s ∧ run 2 s (.add 0) = some (.returned s) := by
  refine ⟨Add_zero s, ?_⟩
  simp [run, step]

/-- C18: for every negative `delta` greater than the least `int`, `Add(delta)` does what
one `Done()` does, whatever the size of `delta`: it returns the same state, or panics,
exactly when `Done()` does, and parks in the same state (at its own receive) when
`Done()` parks; run step by step it ends after four steps, the loop body having run
once. -/
theorem Add_negative_is_one_Done (s : SizedWaitGroup) (delta : Int) (hlo : minInt < delta)
    (hneg : delta < 0) :
    Add s delta =
        (match Done s with
        | .returned t => .returned t
        | .blocked t _ => .blocked t (.downRecv delta delta)
        | .panicked => .panicked) ∧
      run 4 s (.add delta) = some (Add s delta) := by
  have hhi : delta ≤ maxInt := by
    unfold maxInt
    omega
  have hadd : Add s delta =
      match wgAdd s.wg (-1) with
      | none => .panicked
      | some n =>
        match s.current.recv with
        | none => .blocked { s with wg := n } (.downRecv delta delta)
        | some (_, c) => .returned { s with wg := n, current := c } := by
    unfold Add
    rw [if_neg (by omega), addDown_once delta s hlo hhi]
  have hw1 : wrapInt (delta - 1) = delta - 1 := wrapInt_pred delta hlo hhi
  constructor
  · rw [hadd]
    unfold Done wgDone
    cases wgAdd s.wg (-1) with
    | none => rfl
    | some n =>
      cases s.current.recv with
      | none => rfl
      | some p => rfl
  · rw [hadd]
    have hnn : ¬ delta ≥ 0 := by omega
    have hnd : ¬ delta - 1 ≥ delta := by omega
    cases hw : wgAdd s.wg (-1) with
    | none => simp [run, step, hnn, hw]
    | some n =>
      cases hc : s.current.recv with
      | none => simp [run, step, hnn, hw, hc]
      | some p => simp [run, step, hnn, hw, hc, hw1, hnd]

/-- Witness for C18: with two units outstanding, `Add(-7)` releases one, like `Done()`. -/
theorem Add_negative_is_one_Done_witness :
    Add (gateState 3 2 2) (-7) =
        (match Done (gateState 3 2 2) with
        | .returned t => .returned t
        | .blocked t _ => .blocked t (.downRecv (-7) (-7))
        | .panicked => .panicked) ∧
      run 4 (gateState 3 2 2) (.add (-7)) = some (Add (gateState 3 2 2) (-7)) :=
  Add_negative_is_one_Done (gateState 3 2 2) (-7) (by decide) (by decide)

/-- C14 (counterexample): it is not so that under every schedule of the scenario
(`New(2)`, five tasks doing `Add(1)`, work, `Done()`, and a caller of `Wait()`), once
`Wait()` has returned every task has completed its work (has entered `Done()`): when
the caller of `Wait()` runs first, `Wait()` returns on the counter zero before any task
has called `Add(1)`. -/
theorem Wait_can_return_before_any_task :
    ¬ ∀ (ks : List Nat) (cfg : Config),
        execAll fiveTasksConfig (ks.map .sched) = some cfg →
        cfg.procs[5]? = some (Goroutine.mk .ret []) →
        ∀ j, j < 5 → ∃ g, cfg.procs[j]? = some g ∧ g.todo = [] := by
  intro h
  have hrun : execAll fiveTasksConfig (waitFirstSchedule.map .sched) = some waitFirstConfig := by
    decide
  obtain ⟨g, hg, ht⟩ := h waitFirstSchedule waitFirstConfig hrun (by decide) 0 (by decide)
  have hg0 : waitFirstConfig.procs[0]? = some (Goroutine.mk .ret taskProg) := by decide
  rw [hg0] at hg
  simp only [Option.some.injEq] at hg
  subst hg
  simp [taskProg] at ht

/-- C14 (amended): under every schedule of the scenario, at the step at which `Wait()`
returns the completion counter is zero and every task has either not counted itself
yet (it is before the counter update of its `Add(1)`) or has completed its work and
the counter update of its `Done()`; no task is in between.  The step changes nothing
else. -/
theorem Wait_returns_with_no_task_counted (ks : List Nat) (cfg cfg2 : Config)
    (h : execAll fiveTasksConfig (ks.map .sched) = some cfg)
    (hw : cfg.procs[5]? = some (Goroutine.mk .wait []))
    (hret : exec cfg (.sched 5) = some cfg2) :
    cfg2.procs[5]? = some (Goroutine.mk .ret []) ∧ cfg2.shared = cfg.shared ∧
      cfg.shared.wg = 0 ∧
      ∀ j, j < 5 → ∃ g, cfg2.procs[j]? = some g ∧ cfg.procs[j]? = some g ∧
        (g.notCounted = true ∨ g.released = true) := by
  obtain ⟨g0, g1, g2, g3, g4, w, hp, h0, h1, h2, h3, h4, hwt, hsum⟩ :=
    execAll_fiveTasks ks _ _ fiveTasks_init h
  obtain ⟨g, s2, gn, hg, ha, rfl⟩ := exec_sched_some cfg cfg2 5 hret
  rw [hw] at hg
  simp only [Option.some.injEq] at hg
  subst hg
  obtain ⟨-, hs, hz⟩ := waiter_advance _ _ _ _ (by decide) ha
  obtain ⟨hzero, rfl⟩ := hz rfl
  subst hs
  have n0 := units_nonneg g0
  have n1 := units_nonneg g1
  have n2 := units_nonneg g2
  have n3 := units_nonneg g3
  have n4 := units_nonneg g4
  refine ⟨by simp [hp], rfl, hzero, ?_⟩
  intro j hj
  rcases j with _ | _ | _ | _ | _ | j
  · exact ⟨g0, by simp [hp], by simp [hp], isTask_of_units_zero g0 h0 (by omega)⟩
  · exact ⟨g1, by simp [hp], by simp [hp], isTask_of_units_zero g1 h1 (by omega)⟩
  · exact ⟨g2, by simp [hp], by simp [hp], isTask_of_units_zero g2 h2 (by omega)⟩
  · exact ⟨g3, by simp [hp], by simp [hp], isTask_of_units_zero g3 h3 (by omega)⟩
  · exact ⟨g4, by simp [hp], by simp [hp], isTask_of_units_zero g4 h4 (by omega)⟩
  · omega

/-- Witness for C14 (amended): task 0 runs from `Add(1)` to the end of `Done()`, then
`Wait()` is entered and returns; task 0 has completed, the four others have not
counted themselves. -/
theorem Wait_returns_with_no_task_counted_witness :
    execAll fiveTasksConfig (oneTaskThenWait.map .sched) = some oneTaskThenWaitConfig ∧
      exec oneTaskThenWaitConfig (.sched 5) = some oneTaskWaitedConfig ∧
      oneTaskWaitedConfig.procs[5]? = some (Goroutine.mk .ret []) ∧
      oneTaskWaitedConfig.shared = oneTaskThenWaitConfig.shared ∧
      oneTaskThenWaitConfig.shared.wg = 0 ∧
      ∀ j, j < 5 → ∃ g, oneTaskWaitedConfig.procs[j]? = some g ∧
        oneTaskThenWaitConfig.procs[j]? = some g ∧
        (g.notCounted = true ∨ g.released = true) :=
  ⟨by decide, by decide,
    Wait_returns_with_no_task_counted oneTaskThenWait oneTaskThenWaitConfig oneTaskWaitedConfig
      (by decide) (by decide) (by decide)⟩

end Sizedwaitgroup
